import Mathlib

/-!
Verification of the orchestration core of the swc_ephys / spikewrap
pipeline against its natural-language specification.

The definitions below are a shallow embedding of the Python source:

* `decideExisting`, `processRun`, `runAll` embed the per-run decision
  cascade and loop body of `run_sorting_on_all_runs`
  (spikewrap/pipeline/sort.py).
* `runSortingProc` embeds the working-directory effect of `run_sorting`
  (spikewrap/pipeline/sort.py), whose `os.chdir(sorting_data.base_path)`
  is never undone on any exit path.
* `validateInputs` embeds `validate_inputs` (spikewrap/pipeline/sort.py)
  over an explicit heap of Python dictionaries, so that the in-place
  mutation of the caller's `sorter_options[sorter]` dict is visible.
* `getDictValueFromStepNum` embeds `get_dict_value_from_step_num`
  in both of its generations: the swc_ephys one parses only the first
  character of each key (`key[0]`), the spikewrap one parses the full
  numeric stem (`key.split("-")[0]`).
* `listOfFilesAreInDatetimeOrder` / `sortListOfPathsByDatetimeOrder`
  embed the datetime-order helpers of swc_ephys/utils/utils.py, with the
  filesystem's creation and modification clocks passed explicitly.
* `runInSlurm` embeds `run_in_slurm` (spikewrap/utils/_slurm.py).
* `runFullPipelineSlurmProto` embeds the SLURM dispatch prototype of
  swc_ephys/utils/slurm.py.

Machine behaviour that lives outside the repository (the external sorter
binary, the scheduler) is represented by oracles (`ok : String → Bool`)
and by emitted events, never by stubs of repository logic.
-/

namespace SwcEphys

/-- The four existing-output modes of the specification's
`ExistingOutputPolicy`.  The sorting code's own `HandleExisting` literal
covers the first three; `skipIfExists` appears in the wider pipeline
vocabulary and can be passed to the (string-typed) Python function. -/
inductive Mode where
  | failIfExists
  | overwrite
  | loadIfExists
  | skipIfExists
deriving DecidableEq, Repr

/-- The actions of the specification's `ExistingOutputPolicy`. -/
inductive Action where
  | proceedFresh
  | loadExisting
  | skip
  | fail
deriving DecidableEq, Repr

/-- The existing-output decision of `run_sorting_on_all_runs`
(spikewrap/pipeline/sort.py, lines 169-186): if the output directory
exists, `fail_if_exists` raises, `load_if_exists` skips the unit and
reuses the output, and every other mode falls through
`quick_safety_check` to the sorter call (which is passed
`remove_existing_folder=True`). If the directory does not exist, the
sorter call is always reached. -/
def decideExisting (pathExists : Bool) (mode : Mode) : Action :=
  if pathExists then
    match mode with
    | Mode.failIfExists => Action.fail
    | Mode.loadIfExists => Action.loadExisting
    | _ => Action.proceedFresh
  else
    Action.proceedFresh

/-- On-disk content of a sorting-output directory: a completed artifact
for a run, or the partial remains of a failed sorter call. -/
inductive Content where
  | artifact (r : String)
  | incomplete (r : String)
deriving DecidableEq, Repr

/-- Observable external events of one `run_sorting_on_all_runs`
invocation: a call into the external sorter (`ss.run_sorter`), and the
persisting of the per-run sorting manifest (`save_sorting_info`). -/
inductive Event where
  | sorterCall (r : String)
  | saveSortingInfo (r : String)
deriving DecidableEq, Repr

/-- The filesystem as the state store: each path maps to the content of
the sorting-output directory at that path, if it exists. -/
structure SortState where
  fs : String → Option Content

/-- Pointwise update of the filesystem model. -/
def updFs (f : String → Option Content) (p : String) (c : Option Content) :
    String → Option Content :=
  fun q => if q = p then c else f q

/-- The external sorter call for one run (`ss.run_sorter` followed by
`sorting_data.save_sorting_info`).  The oracle `ok` tells whether the
external containerised sorter succeeds on this run.  On success the
output directory holds the completed artifact and the manifest is
persisted right after; on failure the exception propagates (halting the
loop) before `save_sorting_info` is reached, leaving the directory
marked incomplete and no manifest written. -/
def sorterCallStep (pathOf : String → String) (ok : String → Bool)
    (st : SortState) (r : String) :
    SortState × List Event × Option String :=
  if ok r then
    ({ fs := updFs st.fs (pathOf r) (some (Content.artifact r)) },
      [Event.sorterCall r, Event.saveSortingInfo r], none)
  else
    ({ fs := updFs st.fs (pathOf r) (some (Content.incomplete r)) },
      [Event.sorterCall r], some "SpikeSortingError")

/-- Error message of `run_sorting_on_all_runs` when `fail_if_exists`
meets an existing output directory. -/
def errFailIfExists : String :=
  "Sorting output already exists and existing_sorting_output is set to fail_if_exists."

/-- One iteration of the loop body of `run_sorting_on_all_runs` for run
`r`: check `output_path.is_dir()`, then branch on the mode exactly as
the source does. -/
def processRun (pathOf : String → String) (ok : String → Bool) (mode : Mode)
    (st : SortState) (r : String) :
    SortState × List Event × Option String :=
  if (st.fs (pathOf r)).isSome then
    match mode with
    | Mode.failIfExists => (st, [], some errFailIfExists)
    | Mode.loadIfExists => (st, [], none)
    | _ => sorterCallStep pathOf ok st r
  else
    sorterCallStep pathOf ok st r

/-- The loop of `run_sorting_on_all_runs` over
`sorting_data.sorting_run_names()`.  A raised exception (`some err`)
halts the loop immediately, as in Python. -/
def runAll (pathOf : String → String) (ok : String → Bool) (mode : Mode) :
    List String → SortState → SortState × List Event × Option String
  | [], st => (st, [], none)
  | r :: rs, st =>
    match processRun pathOf ok mode st r with
    | (st2, evs, some e) => (st2, evs, some e)
    | (st2, evs, none) =>
      match runAll pathOf ok mode rs st2 with
      | (st3, evs2, res) => (st3, evs ++ evs2, res)

/-- A concrete state with one unit's output already on disk, used by
witnesses and counterexamples. -/
def stOneExisting : SortState :=
  { fs := fun p => if p = "u2" then some (Content.artifact "u2") else none }

/-- A concrete empty filesystem. -/
def stEmpty : SortState := { fs := fun _ => none }

/-- Oracle: the external sorter succeeds on every run. -/
def okAll : String → Bool := fun _ => true

/-- C1 counterexample: the spec's truth table demands that
`SkipIfExists` on an existing path yields `Skip`, but the source's
decision cascade sends every mode other than `fail_if_exists` and
`load_if_exists` to the sorter call, so an existing path under
`skip_if_exists` is recomputed (and, via `remove_existing_folder=True`,
destroyed): the decision is `proceedFresh`, not `skip`, and the loop
body actually re-invokes the external sorter on the unit, replacing the
existing artifact. -/
theorem decideExisting_skipIfExists_not_skip :
    decideExisting true Mode.skipIfExists = Action.proceedFresh
    ∧ decideExisting true Mode.skipIfExists ≠ Action.skip
    ∧ processRun (fun r => r) okAll Mode.skipIfExists stOneExisting "u2"
        = ({ fs := updFs stOneExisting.fs "u2" (some (Content.artifact "u2")) },
            [Event.sorterCall "u2", Event.saveSortingInfo "u2"], none) := by
  refine ⟨rfl, by decide, ?_⟩
  rfl

/-- C1 (amended): the existing-output decision matches the spec's truth
table on every combination except (existing, `SkipIfExists`): any mode
with a non-existing path proceeds fresh; on an existing path
`fail_if_exists` fails, `overwrite` proceeds fresh (the prior output is
removed by the sorter call's `remove_existing_folder=True`), and
`load_if_exists` loads the existing output; but `skip_if_exists` is not
implemented by the sorting decision and behaves like `overwrite`,
proceeding fresh on an existing path. -/
theorem decideExisting_truth_table :
    decideExisting false Mode.failIfExists = Action.proceedFresh
    ∧ decideExisting false Mode.overwrite = Action.proceedFresh
    ∧ decideExisting false Mode.loadIfExists = Action.proceedFresh
    ∧ decideExisting false Mode.skipIfExists = Action.proceedFresh
    ∧ decideExisting true Mode.failIfExists = Action.fail
    ∧ decideExisting true Mode.overwrite = Action.proceedFresh
    ∧ decideExisting true Mode.loadIfExists = Action.loadExisting
    ∧ decideExisting true Mode.skipIfExists = Action.proceedFresh := by
  decide

/-- Unfolding equation of `runAll` when the head run raises. -/
theorem runAll_cons_halt (pathOf : String → String) (ok : String → Bool) (mode : Mode)
    (r : String) (rs : List String) (st st2 : SortState) (evs : List Event) (e : String)
    (h : processRun pathOf ok mode st r = (st2, evs, some e)) :
    runAll pathOf ok mode (r :: rs) st = (st2, evs, some e) := by
  simp only [runAll, h]

/-- Unfolding equation of `runAll` when the head run completes. -/
theorem runAll_cons_continue (pathOf : String → String) (ok : String → Bool) (mode : Mode)
    (r : String) (rs : List String) (st st2 : SortState) (evs : List Event)
    (h : processRun pathOf ok mode st r = (st2, evs, none)) :
    runAll pathOf ok mode (r :: rs) st
      = ((runAll pathOf ok mode rs st2).1,
          evs ++ (runAll pathOf ok mode rs st2).2.1,
          (runAll pathOf ok mode rs st2).2.2) := by
  simp only [runAll, h]

/-- Pointwise update keeps any present entry present. -/
theorem updFs_isSome_of (f : String → Option Content) (p q : String) (c : Content)
    (h : (f q).isSome = true) : ((updFs f p (some c)) q).isSome = true := by
  unfold updFs
  by_cases hq : q = p <;> simp [hq, h]

/-- One sorter call never deletes an existing entry. -/
theorem sorterCallStep_fs_mono (pathOf : String → String) (ok : String → Bool)
    (st : SortState) (r p : String) (h : (st.fs p).isSome = true) :
    (((sorterCallStep pathOf ok st r).1).fs p).isSome = true := by
  unfold sorterCallStep
  split <;> exact updFs_isSome_of _ _ _ _ h

/-- One loop step never deletes an existing entry. -/
theorem processRun_fs_mono (pathOf : String → String) (ok : String → Bool)
    (mode : Mode) (st : SortState) (r p : String)
    (h : (st.fs p).isSome = true) :
    (((processRun pathOf ok mode st r).1).fs p).isSome = true := by
  unfold processRun
  split
  · split
    · exact h
    · exact h
    · exact sorterCallStep_fs_mono pathOf ok st r p h
  · exact sorterCallStep_fs_mono pathOf ok st r p h

/-- The whole loop never deletes an existing entry. -/
theorem runAll_fs_mono (pathOf : String → String) (ok : String → Bool) (mode : Mode) :
    ∀ (runs : List String) (st : SortState) (p : String),
      (st.fs p).isSome = true →
      (((runAll pathOf ok mode runs st).1).fs p).isSome = true := by
  intro runs
  induction runs with
  | nil => intro st p h; exact h
  | cons r rs ih =>
    intro st p h
    have hm := processRun_fs_mono pathOf ok mode st r p h
    rcases hpr : processRun pathOf ok mode st r with ⟨st2, evs, res⟩
    rw [hpr] at hm
    cases res with
    | some e =>
      rw [runAll_cons_halt pathOf ok mode r rs st st2 evs e hpr]
      exact hm
    | none =>
      rw [runAll_cons_continue pathOf ok mode r rs st st2 evs hpr]
      exact ih st2 p hm

/-- The branch of `processRun` taken under `fail_if_exists` on an
existing output path. -/
theorem processRun_fail_on_existing (pathOf : String → String) (ok : String → Bool)
    (st : SortState) (r : String) (hex : (st.fs (pathOf r)).isSome = true) :
    processRun pathOf ok Mode.failIfExists st r = (st, [], some errFailIfExists) := by
  unfold processRun
  simp [hex]

/-- The branch of `processRun` taken on a non-existing output path. -/
theorem processRun_fresh (pathOf : String → String) (ok : String → Bool) (mode : Mode)
    (st : SortState) (r : String) (hex : ¬(st.fs (pathOf r)).isSome = true) :
    processRun pathOf ok mode st r = sorterCallStep pathOf ok st r := by
  unfold processRun
  simp [hex]

/-- The successful sorter call, unfolded. -/
theorem sorterCallStep_ok (pathOf : String → String) (ok : String → Bool)
    (st : SortState) (r : String) (hok : ok r = true) :
    sorterCallStep pathOf ok st r
      = ({ fs := updFs st.fs (pathOf r) (some (Content.artifact r)) },
          [Event.sorterCall r, Event.saveSortingInfo r], none) := by
  unfold sorterCallStep
  simp [hok]

/-- The failing sorter call, unfolded. -/
theorem sorterCallStep_failed (pathOf : String → String) (ok : String → Bool)
    (st : SortState) (r : String) (hok : ¬ok r = true) :
    sorterCallStep pathOf ok st r
      = ({ fs := updFs st.fs (pathOf r) (some (Content.incomplete r)) },
          [Event.sorterCall r], some "SpikeSortingError") := by
  unfold sorterCallStep
  simp [hok]

/-- Under `fail_if_exists`, no sorter call is ever made for a run whose
output path already exists in the current state. -/
theorem runAll_fail_no_call_on_existing (pathOf : String → String) (ok : String → Bool) :
    ∀ (runs : List String) (st : SortState) (r2 : String),
      (st.fs (pathOf r2)).isSome = true →
      Event.sorterCall r2 ∉ (runAll pathOf ok Mode.failIfExists runs st).2.1 := by
  intro runs
  induction runs with
  | nil => intro st r2 _; simp [runAll]
  | cons r rs ih =>
    intro st r2 h
    by_cases hex : (st.fs (pathOf r)).isSome = true
    · rw [runAll_cons_halt pathOf ok Mode.failIfExists r rs st st [] errFailIfExists
        (processRun_fail_on_existing pathOf ok st r hex)]
      simp
    · have hne : r2 ≠ r := by
        intro hEq
        rw [hEq] at h
        exact hex h
      by_cases hok : ok r = true
      · have hpr : processRun pathOf ok Mode.failIfExists st r
            = ({ fs := updFs st.fs (pathOf r) (some (Content.artifact r)) },
                [Event.sorterCall r, Event.saveSortingInfo r], none) := by
          rw [processRun_fresh pathOf ok Mode.failIfExists st r hex]
          exact sorterCallStep_ok pathOf ok st r hok
        rw [runAll_cons_continue pathOf ok Mode.failIfExists r rs st
          { fs := updFs st.fs (pathOf r) (some (Content.artifact r)) }
          [Event.sorterCall r, Event.saveSortingInfo r] hpr]
        have h2 : ((updFs st.fs (pathOf r) (some (Content.artifact r))) (pathOf r2)).isSome
            = true := updFs_isSome_of st.fs (pathOf r) (pathOf r2) (Content.artifact r) h
        have htail := ih { fs := updFs st.fs (pathOf r) (some (Content.artifact r)) } r2 h2
        intro hmem
        simp only [List.mem_append, List.mem_cons, List.not_mem_nil, or_false] at hmem
        rcases hmem with (hmem | hmem) | hmem
        · exact hne (by injection hmem)
        · exact Event.noConfusion hmem
        · exact htail hmem
      · have hpr : processRun pathOf ok Mode.failIfExists st r
            = ({ fs := updFs st.fs (pathOf r) (some (Content.incomplete r)) },
                [Event.sorterCall r], some "SpikeSortingError") := by
          rw [processRun_fresh pathOf ok Mode.failIfExists st r hex]
          exact sorterCallStep_failed pathOf ok st r hok
        rw [runAll_cons_halt pathOf ok Mode.failIfExists r rs st
          { fs := updFs st.fs (pathOf r) (some (Content.incomplete r)) }
          [Event.sorterCall r] "SpikeSortingError" hpr]
        simp [hne]

/-- Under `fail_if_exists`, every output entry that existed at the start
of the invocation is byte-for-byte untouched at the end. -/
theorem runAll_fail_preserves_existing (pathOf : String → String) (ok : String → Bool) :
    ∀ (runs : List String) (st : SortState) (p : String),
      (st.fs p).isSome = true →
      ((runAll pathOf ok Mode.failIfExists runs st).1).fs p = st.fs p := by
  intro runs
  induction runs with
  | nil => intro st p _; rfl
  | cons r rs ih =>
    intro st p h
    by_cases hex : (st.fs (pathOf r)).isSome = true
    · rw [runAll_cons_halt pathOf ok Mode.failIfExists r rs st st [] errFailIfExists
        (processRun_fail_on_existing pathOf ok st r hex)]
    · have hnep : p ≠ pathOf r := by
        intro hEq
        rw [hEq] at h
        exact hex h
      have hloc : ∀ c, (updFs st.fs (pathOf r) (some c)) p = st.fs p := by
        intro c
        unfold updFs
        simp [hnep]
      by_cases hok : ok r = true
      · have hpr : processRun pathOf ok Mode.failIfExists st r
            = ({ fs := updFs st.fs (pathOf r) (some (Content.artifact r)) },
                [Event.sorterCall r, Event.saveSortingInfo r], none) := by
          rw [processRun_fresh pathOf ok Mode.failIfExists st r hex]
          exact sorterCallStep_ok pathOf ok st r hok
        rw [runAll_cons_continue pathOf ok Mode.failIfExists r rs st
          { fs := updFs st.fs (pathOf r) (some (Content.artifact r)) }
          [Event.sorterCall r, Event.saveSortingInfo r] hpr]
        have h2 : ((updFs st.fs (pathOf r) (some (Content.artifact r))) p).isSome = true := by
          rw [hloc (Content.artifact r)]
          exact h
        have htail := ih { fs := updFs st.fs (pathOf r) (some (Content.artifact r)) } p h2
        rw [htail]
        exact hloc (Content.artifact r)
      · have hpr : processRun pathOf ok Mode.failIfExists st r
            = ({ fs := updFs st.fs (pathOf r) (some (Content.incomplete r)) },
                [Event.sorterCall r], some "SpikeSortingError") := by
          rw [processRun_fresh pathOf ok Mode.failIfExists st r hex]
          exact sorterCallStep_failed pathOf ok st r hok
        rw [runAll_cons_halt pathOf ok Mode.failIfExists r rs st
          { fs := updFs st.fs (pathOf r) (some (Content.incomplete r)) }
          [Event.sorterCall r] "SpikeSortingError" hpr]
        exact hloc (Content.incomplete r)

/-- If the very first unit's output already exists, `fail_if_exists`
raises immediately: nothing is called, nothing on disk changes. -/
theorem runAll_fail_halts_at_existing_head (pathOf : String → String) (ok : String → Bool)
    (st : SortState) (r0 : String) (rs : List String)
    (hex : (st.fs (pathOf r0)).isSome = true) :
    runAll pathOf ok Mode.failIfExists (r0 :: rs) st = (st, [], some errFailIfExists) :=
  runAll_cons_halt pathOf ok Mode.failIfExists r0 rs st st [] errFailIfExists
    (processRun_fail_on_existing pathOf ok st r0 hex)

/-- C2 (amended): with mode `fail_if_exists`, (i) no external sorter
call is ever issued for a unit whose output path already exists, (ii)
every initially-existing output entry is left unmodified by the
invocation, and (iii) when the existing unit is the first one processed
(the spec's scenario), the invocation raises the fatal error with zero
external calls and the entire on-disk state unchanged.  The frozen
claim's blanket "no file created by the invocation" is weaker than
stated: when a non-existing unit precedes the existing one in the run
list, that earlier unit is still sorted fresh before the error is
raised, so the invocation as a whole does create files (see the
counterexample). -/
theorem runAll_failIfExists_fail_fast (pathOf : String → String) (ok : String → Bool)
    (st : SortState) (runs : List String) :
    (∀ r ∈ runs, (st.fs (pathOf r)).isSome = true →
        Event.sorterCall r ∉ (runAll pathOf ok Mode.failIfExists runs st).2.1)
    ∧ (∀ p, (st.fs p).isSome = true →
        ((runAll pathOf ok Mode.failIfExists runs st).1).fs p = st.fs p)
    ∧ (∀ r0 rs, runs = r0 :: rs → (st.fs (pathOf r0)).isSome = true →
        runAll pathOf ok Mode.failIfExists runs st = (st, [], some errFailIfExists)) := by
  refine ⟨?_, ?_, ?_⟩
  · intro r _ h
    exact runAll_fail_no_call_on_existing pathOf ok runs st r h
  · intro p h
    exact runAll_fail_preserves_existing pathOf ok runs st p h
  · intro r0 rs hEq hex
    subst hEq
    exact runAll_fail_halts_at_existing_head pathOf ok st r0 rs hex

/-- C2 witness: with the single existing unit `u2` and mode
`fail_if_exists`, the invocation returns the unchanged state, an empty
event list and the fatal error. -/
theorem runAll_failIfExists_fail_fast_witness :
    (stOneExisting.fs "u2").isSome = true
    ∧ runAll (fun r => r) okAll Mode.failIfExists ["u2"] stOneExisting
        = (stOneExisting, [], some errFailIfExists) := by
  refine ⟨rfl, ?_⟩
  exact (runAll_failIfExists_fail_fast (fun r => r) okAll stOneExisting ["u2"]).2.2
    "u2" [] rfl rfl

/-- C2 counterexample: the frozen claim asserts that whenever some
unit's output path already exists, a `fail_if_exists` invocation leaves
on-disk state unchanged (no file created).  With run list
`["u1", "u2"]` where only `u2`'s output exists, the code first sorts
`u1` fresh (creating its output) and only then raises at `u2`, so the
invocation did create a file. -/
theorem runAll_failIfExists_state_change_counterexample :
    (stOneExisting.fs "u2").isSome = true
    ∧ (runAll (fun r => r) okAll Mode.failIfExists ["u1", "u2"] stOneExisting).2.2
        = some errFailIfExists
    ∧ stOneExisting.fs "u1" = none
    ∧ ((runAll (fun r => r) okAll Mode.failIfExists ["u1", "u2"] stOneExisting).1).fs "u1"
        = some (Content.artifact "u1") := by
  refine ⟨rfl, rfl, rfl, rfl⟩

/-- Input to `get_data_and_recording` (swc_ephys/pipeline/sort.py): a
path to previously saved preprocessed binary data, or an in-memory data
object whose `preprocessed_binary_data_path` may or may not exist. -/
inductive DataInput where
  | pathInput (p : String)
  | dataObject (binaryExists : Bool)
deriving DecidableEq, Repr

/-- External preprocessing effects of `get_data_and_recording`: loading
an existing binary (no recomputation) versus materialising the lazy
preprocessing chain to disk (`save_all_preprocessed_data`). -/
inductive PrepEvent where
  | loadBinary
  | saveAllPreprocessed
deriving DecidableEq, Repr

/-- Embedding of `get_data_and_recording`
(swc_ephys/pipeline/sort.py, lines 141-161): a str/Path input is
loaded; a data object with `use_existing_preprocessed_file=True` whose
binary directory exists is loaded; otherwise the preprocessed data is
saved (materialised) fresh. -/
def getDataAndRecording : DataInput → Bool → List PrepEvent
  | DataInput.pathInput _, _ => [PrepEvent.loadBinary]
  | DataInput.dataObject binaryExists, useExisting =>
    if useExisting && binaryExists then [PrepEvent.loadBinary]
    else [PrepEvent.saveAllPreprocessed]

/-- Under `overwrite` an existing output is handed to the sorter call
(which removes it first). -/
theorem processRun_overwrite_on_existing (pathOf : String → String) (ok : String → Bool)
    (st : SortState) (r : String) (hex : (st.fs (pathOf r)).isSome = true) :
    processRun pathOf ok Mode.overwrite st r = sorterCallStep pathOf ok st r := by
  unfold processRun
  simp [hex]

/-- Under `skip_if_exists` an existing output is likewise handed to the
sorter call: the mode is not implemented by the decision cascade. -/
theorem processRun_skip_on_existing (pathOf : String → String) (ok : String → Bool)
    (st : SortState) (r : String) (hex : (st.fs (pathOf r)).isSome = true) :
    processRun pathOf ok Mode.skipIfExists st r = sorterCallStep pathOf ok st r := by
  unfold processRun
  simp [hex]

/-- Under `load_if_exists` an existing output is reused untouched. -/
theorem processRun_load_on_existing (pathOf : String → String) (ok : String → Bool)
    (st : SortState) (r : String) (hex : (st.fs (pathOf r)).isSome = true) :
    processRun pathOf ok Mode.loadIfExists st r = (st, [], none) := by
  unfold processRun
  simp [hex]

/-- A sorter call that did not raise has written the unit's artifact. -/
theorem sorterCallStep_success_path_exists (pathOf : String → String) (ok : String → Bool)
    (st st2 : SortState) (r : String) (evs : List Event)
    (h : sorterCallStep pathOf ok st r = (st2, evs, none)) :
    (st2.fs (pathOf r)).isSome = true := by
  by_cases hok : ok r = true
  · rw [sorterCallStep_ok pathOf ok st r hok] at h
    have hst : ({ fs := updFs st.fs (pathOf r) (some (Content.artifact r)) } : SortState)
        = st2 := congrArg (fun t => t.1) h
    rw [← hst]
    simp [updFs]
  · rw [sorterCallStep_failed pathOf ok st r hok] at h
    have hbad : (some "SpikeSortingError" : Option String) = none :=
      congrArg (fun t => t.2.2) h
    exact absurd hbad (by simp)

/-- After a run completes, its output path holds an entry. -/
theorem processRun_success_path_exists (pathOf : String → String) (ok : String → Bool)
    (mode : Mode) (st st2 : SortState) (r : String) (evs : List Event)
    (h : processRun pathOf ok mode st r = (st2, evs, none)) :
    (st2.fs (pathOf r)).isSome = true := by
  by_cases hex : (st.fs (pathOf r)).isSome = true
  · cases mode with
    | failIfExists =>
      rw [processRun_fail_on_existing pathOf ok st r hex] at h
      have hbad : (some errFailIfExists : Option String) = none :=
        congrArg (fun t => t.2.2) h
      exact absurd hbad (by simp)
    | loadIfExists =>
      rw [processRun_load_on_existing pathOf ok st r hex] at h
      have hst : st = st2 := congrArg (fun t => t.1) h
      rw [← hst]
      exact hex
    | overwrite =>
      rw [processRun_overwrite_on_existing pathOf ok st r hex] at h
      exact sorterCallStep_success_path_exists pathOf ok st st2 r evs h
    | skipIfExists =>
      rw [processRun_skip_on_existing pathOf ok st r hex] at h
      exact sorterCallStep_success_path_exists pathOf ok st st2 r evs h
  · rw [processRun_fresh pathOf ok mode st r hex] at h
    exact sorterCallStep_success_path_exists pathOf ok st st2 r evs h

/-- After a fully successful invocation, every run's output path holds
an entry: the filesystem records completion for all units. -/
theorem runAll_success_paths_exist (pathOf : String → String) (ok : String → Bool)
    (mode : Mode) :
    ∀ (runs : List String) (st : SortState),
      (runAll pathOf ok mode runs st).2.2 = none →
      ∀ r ∈ runs, (((runAll pathOf ok mode runs st).1).fs (pathOf r)).isSome = true := by
  intro runs
  induction runs with
  | nil => intro st _ r hr; exact absurd hr (List.not_mem_nil r)
  | cons r0 rs ih =>
    intro st hsucc r hr
    rcases hpr : processRun pathOf ok mode st r0 with ⟨st2, evs, res⟩
    cases res with
    | some e =>
      rw [runAll_cons_halt pathOf ok mode r0 rs st st2 evs e hpr] at hsucc
      exact absurd hsucc (by simp)
    | none =>
      have hcont := runAll_cons_continue pathOf ok mode r0 rs st st2 evs hpr
      rw [hcont] at hsucc
      rw [hcont]
      rcases List.mem_cons.mp hr with hEq | hmem
      · subst hEq
        have hbase : (st2.fs (pathOf r)).isSome = true :=
          processRun_success_path_exists pathOf ok mode st st2 r evs hpr
        exact runAll_fs_mono pathOf ok mode rs st2 (pathOf r) hbase
      · exact ih st2 hsucc r hmem

/-- When every unit's output path already exists, `load_if_exists`
makes the whole loop a no-op: no events, no state change, success. -/
theorem runAll_load_noop (pathOf : String → String) (ok : String → Bool) :
    ∀ (runs : List String) (st : SortState),
      (∀ r ∈ runs, (st.fs (pathOf r)).isSome = true) →
      runAll pathOf ok Mode.loadIfExists runs st = (st, [], none) := by
  intro runs
  induction runs with
  | nil => intro st _; rfl
  | cons r0 rs ih =>
    intro st hall
    have hex := hall r0 (List.mem_cons_self r0 rs)
    have hpr : processRun pathOf ok Mode.loadIfExists st r0 = (st, [], none) := by
      unfold processRun
      simp [hex]
    rw [runAll_cons_continue pathOf ok Mode.loadIfExists r0 rs st st [] hpr]
    rw [ih st (fun r hr => hall r (List.mem_cons_of_mem r0 hr))]
    rfl

/-- C3: if a first invocation of the sorting loop succeeds (whatever its
mode and however the external sorter behaved), then re-invoking the
orchestrator on the resulting state with mode `load_if_exists` is
idempotent: the second invocation makes zero external sorter calls
(empty event list, for any sorter oracle), succeeds, and returns the
on-disk state unchanged; and on the preprocessing side,
`get_data_and_recording` with an existing preprocessed binary and the
load option set performs a load, not a fresh materialisation. -/
theorem runAll_loadIfExists_idempotent (pathOf : String → String)
    (ok ok2 : String → Bool) (mode : Mode) (runs : List String)
    (st0 st1 : SortState) (evs : List Event)
    (h : runAll pathOf ok mode runs st0 = (st1, evs, none)) :
    runAll pathOf ok2 Mode.loadIfExists runs st1 = (st1, [], none)
    ∧ getDataAndRecording (DataInput.dataObject true) true = [PrepEvent.loadBinary] := by
  constructor
  · have hall : ∀ r ∈ runs, (st1.fs (pathOf r)).isSome = true := by
      intro r hr
      have hmono := runAll_success_paths_exist pathOf ok mode runs st0 (by rw [h]) r hr
      rw [h] at hmono
      exact hmono
    exact runAll_load_noop pathOf ok2 runs st1 hall
  · rfl

/-- C3 state after a first (successful) overwrite-mode invocation on an
empty filesystem, used by the idempotence witness. -/
def stAfterFirst : SortState :=
  (runAll (fun r => r) okAll Mode.overwrite ["u1", "u2"] stEmpty).1

/-- C3 witness: a concrete two-unit first invocation succeeds, and the
second invocation under `load_if_exists` returns the state unchanged
with an empty event list. -/
theorem runAll_loadIfExists_idempotent_witness :
    (runAll (fun r => r) okAll Mode.overwrite ["u1", "u2"] stEmpty).2.2 = none
    ∧ runAll (fun r => r) okAll Mode.loadIfExists ["u1", "u2"] stAfterFirst
        = (stAfterFirst, [], none) := by
  refine ⟨rfl, ?_⟩
  exact (runAll_loadIfExists_idempotent (fun r => r) okAll okAll Mode.overwrite
    ["u1", "u2"] stEmpty stAfterFirst
    (runAll (fun r => r) okAll Mode.overwrite ["u1", "u2"] stEmpty).2.1 rfl).1

/-- The four possible outcomes of one loop step: fail-fast halt, load
no-op, successful sorter call, failed sorter call. -/
theorem processRun_cases (pathOf : String → String) (ok : String → Bool) (mode : Mode)
    (st : SortState) (r : String) :
    processRun pathOf ok mode st r = (st, [], some errFailIfExists)
    ∨ processRun pathOf ok mode st r = (st, [], none)
    ∨ (ok r = true ∧ processRun pathOf ok mode st r
        = ({ fs := updFs st.fs (pathOf r) (some (Content.artifact r)) },
            [Event.sorterCall r, Event.saveSortingInfo r], none))
    ∨ (ok r = false ∧ processRun pathOf ok mode st r
        = ({ fs := updFs st.fs (pathOf r) (some (Content.incomplete r)) },
            [Event.sorterCall r], some "SpikeSortingError")) := by
  have hcall : ∀ hcs : processRun pathOf ok mode st r = sorterCallStep pathOf ok st r,
      processRun pathOf ok mode st r = (st, [], some errFailIfExists)
      ∨ processRun pathOf ok mode st r = (st, [], none)
      ∨ (ok r = true ∧ processRun pathOf ok mode st r
          = ({ fs := updFs st.fs (pathOf r) (some (Content.artifact r)) },
              [Event.sorterCall r, Event.saveSortingInfo r], none))
      ∨ (ok r = false ∧ processRun pathOf ok mode st r
          = ({ fs := updFs st.fs (pathOf r) (some (Content.incomplete r)) },
              [Event.sorterCall r], some "SpikeSortingError")) := by
    intro hcs
    cases hok : ok r with
    | true =>
      refine Or.inr (Or.inr (Or.inl ⟨rfl, ?_⟩))
      rw [hcs]
      exact sorterCallStep_ok pathOf ok st r hok
    | false =>
      refine Or.inr (Or.inr (Or.inr ⟨rfl, ?_⟩))
      rw [hcs]
      exact sorterCallStep_failed pathOf ok st r (by simp [hok])
  by_cases hex : (st.fs (pathOf r)).isSome = true
  · cases mode with
    | failIfExists => exact Or.inl (processRun_fail_on_existing pathOf ok st r hex)
    | loadIfExists => exact Or.inr (Or.inl (processRun_load_on_existing pathOf ok st r hex))
    | overwrite => exact hcall (processRun_overwrite_on_existing pathOf ok st r hex)
    | skipIfExists => exact hcall (processRun_skip_on_existing pathOf ok st r hex)
  · exact hcall (processRun_fresh pathOf ok mode st r hex)

/-- A sorter call emits events only about its own run. -/
theorem sorterCallStep_events_only (pathOf : String → String) (ok : String → Bool)
    (st : SortState) (r r2 : String) (hne : r2 ≠ r) :
    Event.sorterCall r2 ∉ (sorterCallStep pathOf ok st r).2.1
    ∧ Event.saveSortingInfo r2 ∉ (sorterCallStep pathOf ok st r).2.1 := by
  unfold sorterCallStep
  split <;> simp [hne]

/-- A loop step emits events only about its own run. -/
theorem processRun_events_only (pathOf : String → String) (ok : String → Bool)
    (mode : Mode) (st : SortState) (r r2 : String) (hne : r2 ≠ r) :
    Event.sorterCall r2 ∉ (processRun pathOf ok mode st r).2.1
    ∧ Event.saveSortingInfo r2 ∉ (processRun pathOf ok mode st r).2.1 := by
  unfold processRun
  split
  · split
    · simp
    · simp
    · exact sorterCallStep_events_only pathOf ok st r r2 hne
  · exact sorterCallStep_events_only pathOf ok st r r2 hne

/-- The loop emits events only about runs in its run list. -/
theorem runAll_events_only (pathOf : String → String) (ok : String → Bool) (mode : Mode) :
    ∀ (runs : List String) (st : SortState) (r2 : String), r2 ∉ runs →
      Event.sorterCall r2 ∉ (runAll pathOf ok mode runs st).2.1
      ∧ Event.saveSortingInfo r2 ∉ (runAll pathOf ok mode runs st).2.1 := by
  intro runs
  induction runs with
  | nil => intro st r2 _; simp [runAll]
  | cons r rs ih =>
    intro st r2 hnm
    have hne : r2 ≠ r := fun hEq => hnm (hEq ▸ List.mem_cons_self r rs)
    have hnm2 : r2 ∉ rs := fun hm => hnm (List.mem_cons_of_mem r hm)
    have hevs := processRun_events_only pathOf ok mode st r r2 hne
    rcases hpr : processRun pathOf ok mode st r with ⟨st2, evs, res⟩
    rw [hpr] at hevs
    cases res with
    | some e =>
      rw [runAll_cons_halt pathOf ok mode r rs st st2 evs e hpr]
      exact hevs
    | none =>
      rw [runAll_cons_continue pathOf ok mode r rs st st2 evs hpr]
      have htail := ih st2 r2 hnm2
      constructor
      · simp only [List.mem_append]
        intro hmem
        rcases hmem with hmem | hmem
        · exact hevs.1 hmem
        · exact htail.1 hmem
      · simp only [List.mem_append]
        intro hmem
        rcases hmem with hmem | hmem
        · exact hevs.2 hmem
        · exact htail.2 hmem

/-- C9: over any invocation of the sorting loop on duplicate-free run
names, every unit's external sorter call happens at most once (and
exactly once whenever it happens at all, i.e. whenever the executor
proceeded fresh on the unit), and the unit's sorting manifest is
persisted by the invocation if and only if the unit's external sorter
call was made and completed successfully — so the invocation never
writes a manifest for a unit whose sorter call failed or never ran. -/
theorem runAll_manifest_iff_sorter_success (pathOf : String → String)
    (ok : String → Bool) (mode : Mode) :
    ∀ (runs : List String) (st : SortState), runs.Nodup →
      ∀ r ∈ runs,
        ((runAll pathOf ok mode runs st).2.1).count (Event.sorterCall r) ≤ 1
        ∧ (Event.sorterCall r ∈ (runAll pathOf ok mode runs st).2.1 →
            ((runAll pathOf ok mode runs st).2.1).count (Event.sorterCall r) = 1)
        ∧ (Event.saveSortingInfo r ∈ (runAll pathOf ok mode runs st).2.1
            ↔ (Event.sorterCall r ∈ (runAll pathOf ok mode runs st).2.1 ∧ ok r = true)) := by
  intro runs
  induction runs with
  | nil => intro st _ r hr; exact absurd hr (List.not_mem_nil r)
  | cons r0 rs ih =>
    intro st hnd r hr
    have hr0nm : r0 ∉ rs := (List.nodup_cons.mp hnd).1
    have hndrs : rs.Nodup := (List.nodup_cons.mp hnd).2
    rcases processRun_cases pathOf ok mode st r0 with he | he | ⟨hok, he⟩ | ⟨hok, he⟩
    · rw [runAll_cons_halt pathOf ok mode r0 rs st st [] errFailIfExists he]
      simp
    · rw [runAll_cons_continue pathOf ok mode r0 rs st st [] he]
      rcases List.mem_cons.mp hr with hEq | hmem
      · subst hEq
        have htail := runAll_events_only pathOf ok mode rs st r hr0nm
        have hc0 : ((runAll pathOf ok mode rs st).2.1).count (Event.sorterCall r) = 0 :=
          List.count_eq_zero.mpr htail.1
        refine ⟨by simp [hc0], ?_, ?_⟩
        · intro hmem2
          exact absurd (by simpa using hmem2) htail.1
        · constructor
          · intro hmem2
            exact absurd (by simpa using hmem2) htail.2
          · rintro ⟨hmem2, _⟩
            exact absurd (by simpa using hmem2) htail.1
      · have hihr := ih st hndrs r hmem
        simpa using hihr
    · rw [runAll_cons_continue pathOf ok mode r0 rs st _ _ he]
      rcases List.mem_cons.mp hr with hEq | hmem
      · subst hEq
        have htail := runAll_events_only pathOf ok mode rs
          { fs := updFs st.fs (pathOf r) (some (Content.artifact r)) } r hr0nm
        have hc0 : ((runAll pathOf ok mode rs
            { fs := updFs st.fs (pathOf r) (some (Content.artifact r)) }).2.1).count
              (Event.sorterCall r) = 0 :=
          List.count_eq_zero.mpr htail.1
        refine ⟨?_, ?_, ?_⟩
        · simp [List.count_append, List.count_cons, hc0]
        · intro _
          simp [List.count_append, List.count_cons, hc0]
        · simp [hok]
      · have hne : r ≠ r0 := fun hEq => hr0nm (hEq ▸ hmem)
        have hihr := ih { fs := updFs st.fs (pathOf r0) (some (Content.artifact r0)) }
          hndrs r hmem
        refine ⟨?_, ?_, ?_⟩
        · simpa [List.count_append, List.count_cons, hne] using hihr.1
        · intro hmem2
          have hmem3 : Event.sorterCall r
              ∈ (runAll pathOf ok mode rs
                { fs := updFs st.fs (pathOf r0) (some (Content.artifact r0)) }).2.1 := by
            simpa [hne] using hmem2
          simpa [List.count_append, List.count_cons, hne] using hihr.2.1 hmem3
        · have hiff := hihr.2.2
          constructor
          · intro hmem2
            have hmem3 : Event.saveSortingInfo r
                ∈ (runAll pathOf ok mode rs
                  { fs := updFs st.fs (pathOf r0) (some (Content.artifact r0)) }).2.1 := by
              simpa [hne] using hmem2
            have hres := hiff.mp hmem3
            exact ⟨by simp [hres.1], hres.2⟩
          · rintro ⟨hmem2, hokr⟩
            have hmem3 : Event.sorterCall r
                ∈ (runAll pathOf ok mode rs
                  { fs := updFs st.fs (pathOf r0) (some (Content.artifact r0)) }).2.1 := by
              simpa [hne] using hmem2
            have hres := hiff.mpr ⟨hmem3, hokr⟩
            simp [hres]
    · rw [runAll_cons_halt pathOf ok mode r0 rs st _ _ _ he]
      rcases List.mem_cons.mp hr with hEq | hmem
      · subst hEq
        simp [List.count_cons, hok]
      · have hne : r ≠ r0 := fun hEq => hr0nm (hEq ▸ hmem)
        simp [List.count_cons, hne]

/-- C9 witness: a concrete two-unit overwrite invocation, specialised
to unit `u1`. -/
theorem runAll_manifest_iff_sorter_success_witness :
    (["u1", "u2"] : List String).Nodup
    ∧ "u1" ∈ (["u1", "u2"] : List String)
    ∧ (((runAll (fun r => r) okAll Mode.overwrite ["u1", "u2"] stEmpty).2.1).count
          (Event.sorterCall "u1") ≤ 1
        ∧ (Event.sorterCall "u1"
              ∈ (runAll (fun r => r) okAll Mode.overwrite ["u1", "u2"] stEmpty).2.1 →
            ((runAll (fun r => r) okAll Mode.overwrite ["u1", "u2"] stEmpty).2.1).count
              (Event.sorterCall "u1") = 1)
        ∧ (Event.saveSortingInfo "u1"
              ∈ (runAll (fun r => r) okAll Mode.overwrite ["u1", "u2"] stEmpty).2.1
            ↔ (Event.sorterCall "u1"
                ∈ (runAll (fun r => r) okAll Mode.overwrite ["u1", "u2"] stEmpty).2.1
              ∧ okAll "u1" = true))) :=
  ⟨by decide, by decide,
    runAll_manifest_iff_sorter_success (fun r => r) okAll Mode.overwrite
      ["u1", "u2"] stEmpty (by decide) "u1" (by decide)⟩

/-- Numeric value of a decimal digit character, `none` otherwise:
the guts of Python's `int()` on a single character. -/
def digitVal (c : Char) : Option Nat :=
  if c = '0' then some 0
  else if c = '1' then some 1
  else if c = '2' then some 2
  else if c = '3' then some 3
  else if c = '4' then some 4
  else if c = '5' then some 5
  else if c = '6' then some 6
  else if c = '7' then some 7
  else if c = '8' then some 8
  else if c = '9' then some 9
  else none

/-- Accumulator loop of decimal parsing. -/
def parseNatFrom : List Char → Nat → Option Nat
  | [], acc => some acc
  | c :: cs, acc =>
    match digitVal c with
    | none => none
    | some d => parseNatFrom cs (acc * 10 + d)

/-- Python's `int(str)` on a decimal string: fails on the empty string
or on any non-digit character. -/
def parseNat (cs : List Char) : Option Nat :=
  match cs with
  | [] => none
  | _ => parseNatFrom cs 0

/-- Decimal digit character for a value below ten. -/
def digitChar (n : Nat) : Char :=
  if n = 0 then '0'
  else if n = 1 then '1'
  else if n = 2 then '2'
  else if n = 3 then '3'
  else if n = 4 then '4'
  else if n = 5 then '5'
  else if n = 6 then '6'
  else if n = 7 then '7'
  else if n = 8 then '8'
  else '9'

/-- Fuelled decimal rendering loop (the fuel is an upper bound on the
digit count, so it never runs out for the starting value). -/
def natToCharsAux : Nat → Nat → List Char
  | 0, _ => []
  | fuel + 1, n =>
    if n < 10 then [digitChar n]
    else natToCharsAux fuel (n / 10) ++ [digitChar (n % 10)]

/-- Python's `str(int)` for a natural number. -/
def natToChars (n : Nat) : List Char :=
  natToCharsAux (n + 1) n

/-- The stem `key[0]` of swc_ephys `get_keys_first_char`
(swc_ephys/utils/utils.py, lines 27-44): only the first character of
the key is read. -/
def keyStemSwc (cs : List Char) : List Char := cs.take 1

/-- The stem `key.split("-")[0]` of spikewrap `get_keys_first_char`
(spikewrap/utils/utils.py, lines 50-76): the full numeric stem before
the first dash is read. -/
def keyStemSpikewrap (cs : List Char) : List Char :=
  cs.takeWhile (fun c => c != '-')

/-- All-or-nothing sequencing of a list of optional values: Python's
`int()` raising inside the comprehension of `get_keys_first_char`. -/
def optList : List (Option Nat) → Option (List Nat)
  | [] => some []
  | none :: _ => none
  | some n :: rest =>
    match optList rest with
    | none => none
    | some ns => some (n :: ns)

/-- Embedding of `get_dict_value_from_step_num`, parametrised by the
key-stem reader (`keyStemSwc` for swc_ephys/utils/utils.py lines 47-85,
`keyStemSpikewrap` for spikewrap/utils/utils.py lines 79-129).  The
preprocessing dict is an ordered association list from key (char list)
to artifact.  For `step_num = "last"` the code takes `np.max` of the
parsed key stems, asserts the maximum equals `len(data) - 1` (a fatal
consistency error otherwise), renders the maximum back to a string, and
then selects the unique key whose stem equals it (fatal if not exactly
one). -/
def getDictValueFromStepNum (keyStem : List Char → List Char)
    (data : List (List Char × Nat)) (stepNum : List Char) :
    Except String (Nat × List Char) :=
  let resolved : Except String (List Char) :=
    if stepNum = ['l', 'a', 's', 't'] then
      match optList (data.map (fun kv => parseNat (keyStem kv.1))) with
      | none => Except.error "ValueError: invalid literal for int"
      | some [] => Except.error "ValueError: max of an empty sequence"
      | some (n :: ns) =>
        let m := List.foldl Nat.max n ns
        if m = data.length - 1 then Except.ok (natToChars m)
        else Except.error "the last key has been taken incorrectly"
    else Except.ok stepNum
  match resolved with
  | Except.error e => Except.error e
  | Except.ok s =>
    match data.filter (fun kv => keyStem kv.1 == s) with
    | [kv] => Except.ok (kv.2, kv.1)
    | _ => Except.error "pp_key must always have unique first char"

/-- A valid eleven-step preprocessing dict: step numbers 0..10, one key
per step number, no gaps and no duplicates. -/
def elevenStepKeys : List (List Char × Nat) :=
  [("0-raw".data, 0), ("1-a".data, 1), ("2-b".data, 2), ("3-c".data, 3),
    ("4-d".data, 4), ("5-e".data, 5), ("6-f".data, 6), ("7-g".data, 7),
    ("8-h".data, 8), ("9-i".data, 9), ("10-j".data, 10)]

/-- C4: on a perfectly valid eleven-step mapping (step numbers 0..10,
exactly one key per number — third conjunct), the swc_ephys resolver
reads only `key[0]`, so it computes max 9 instead of 10, the
`max = count - 1` assertion fires, and the call dies with the fatal
consistency error even though no numbering invariant is violated; the
spikewrap resolver (`key.split("-")[0]`) returns the step-10 artifact
as the claim demands.  The claim's "holds for all step counts,
including ten or more" is therefore false of the swc_ephys code (it
holds only while every step number is a single digit, i.e. for at most
ten steps). -/
theorem getDictValueFromStepNum_first_char_bug :
    getDictValueFromStepNum keyStemSwc elevenStepKeys "last".data
        = Except.error "the last key has been taken incorrectly"
    ∧ getDictValueFromStepNum keyStemSpikewrap elevenStepKeys "last".data
        = Except.ok (10, "10-j".data)
    ∧ elevenStepKeys.map (fun kv => parseNat (keyStemSpikewrap kv.1))
        = [some 0, some 1, some 2, some 3, some 4, some 5, some 6, some 7,
            some 8, some 9, some 10] := by
  refine ⟨?_, ?_, ?_⟩ <;> rfl

/-- Process-wide state relevant to `run_sorting`: the current working
directory of the Python process. -/
structure ProcState where
  cwd : String
deriving DecidableEq, Repr

/-- Embedding of the working-directory effect of `run_sorting`
(spikewrap/pipeline/sort.py): after validation the function executes
`os.chdir(sorting_data.base_path)` and then runs the sorting loop.
There is no enclosing try/finally and no second `chdir`, so whether the
loop returns or raises, the process is left in `base_path`; the
swc_ephys generation (swc_ephys/pipeline/sort.py, line 77) has the same
bare `os.chdir(loaded_data.base_path)`. -/
def runSortingProc (pathOf : String → String) (ok : String → Bool) (mode : Mode)
    (basePath : String) (runs : List String) (st : SortState) (_p : ProcState) :
    ProcState × SortState × List Event × Option String :=
  let p2 : ProcState := { cwd := basePath }
  match runAll pathOf ok mode runs st with
  | (st2, evs, res) => (p2, st2, evs, res)

/-- Oracle: the external sorter fails on every run. -/
def okNone : String → Bool := fun _ => false

/-- C5: the claim says the working directory is restored to its prior
value on every exit path of a sorter invocation; the code never
restores it.  Starting from cwd `/home/user` with base path
`/mnt/base`, the process ends in `/mnt/base` both when the sorter
succeeds (normal return) and when it raises (error exit path), and
`/mnt/base` is not the prior value. -/
theorem runSorting_never_restores_cwd :
    (runSortingProc (fun r => r) okAll Mode.overwrite "/mnt/base" ["u1"] stEmpty
        { cwd := "/home/user" }).1.cwd = "/mnt/base"
    ∧ (runSortingProc (fun r => r) okNone Mode.overwrite "/mnt/base" ["u1"] stEmpty
        { cwd := "/home/user" }).1.cwd = "/mnt/base"
    ∧ (runSortingProc (fun r => r) okNone Mode.overwrite "/mnt/base" ["u1"] stEmpty
        { cwd := "/home/user" }).2.2.2 = some "SpikeSortingError"
    ∧ (runSortingProc (fun r => r) okAll Mode.overwrite "/mnt/base" ["u1"] stEmpty
        { cwd := "/home/user" }).2.2.2 = none
    ∧ ("/mnt/base" : String) ≠ "/home/user" := by
  refine ⟨rfl, rfl, rfl, rfl, by decide⟩

/-- Events of the swc_ephys SLURM dispatch prototype.  `assertNotBatch`
is the re-entrancy guard assertion the spec demands of an executed
batch task; it is never emitted by this body. -/
inductive DispatchEvent where
  | hitBreakpoint
  | createSlurmClient
  | submitToScheduler (task : String)
  | assertNotBatch
deriving DecidableEq, Repr

/-- Embedding of `run_full_pipeline` in swc_ephys/utils/slurm.py
(lines 17-20): the body executes `breakpoint()`, builds a dask
`SLURMCluster` client, and calls
`client.submit(run_full_pipeline, **kwargs)` — the submitted callable
is this very function with the caller's kwargs unchanged, so the task
the scheduler later executes is this same body again.  No assertion is
executed anywhere in it. -/
def runFullPipelineSlurmProto (_kwargs : String) : List DispatchEvent :=
  [DispatchEvent.hitBreakpoint, DispatchEvent.createSlurmClient,
    DispatchEvent.submitToScheduler "run_full_pipeline"]

/-- C6: the claim says every batch-dispatched task body asserts it is
not itself requesting batch mode again and never re-submits itself.
The swc_ephys dispatch body both re-submits itself to the scheduler
(it submits the function `run_full_pipeline`, i.e. itself, with
unchanged kwargs) and performs no guard assertion, so each execution of
the dispatched task issues a fresh self-submission. -/
theorem runFullPipelineSlurmProto_resubmits_itself :
    DispatchEvent.submitToScheduler "run_full_pipeline"
        ∈ runFullPipelineSlurmProto "kwargs"
    ∧ DispatchEvent.assertNotBatch ∉ runFullPipelineSlurmProto "kwargs"
    ∧ (runFullPipelineSlurmProto "kwargs").count
        (DispatchEvent.submitToScheduler "run_full_pipeline") = 1 := by
  refine ⟨by decide, by decide, by decide⟩

/-- Stable insertion of a path into a key-sorted list: equal keys keep
their original relative order, as in Python's stable `list.sort`. -/
def insertByKey (key : String → Nat) (x : String) : List String → List String
  | [] => [x]
  | y :: ys => if key x ≤ key y then x :: y :: ys else y :: insertByKey key x ys

/-- Stable ascending sort by key: the model of Python's
`list.sort(key=...)`. -/
def stableSortByKey (key : String → Nat) : List String → List String
  | [] => []
  | x :: xs => insertByKey key x (stableSortByKey key xs)

/-- Embedding of `sort_list_of_paths_by_datetime_order`
(swc_ephys/utils/utils.py, lines 199-214): sorts the copied list by
`os.path.getctime`, the filesystem creation clock, passed here as an
explicit map from path to timestamp. -/
def sortListOfPathsByDatetimeOrder (getctime : String → Nat)
    (listOfPaths : List String) : List String :=
  stableSortByKey getctime listOfPaths

/-- Embedding of `list_of_files_are_in_datetime_order`
(swc_ephys/utils/utils.py, lines 217-248).  Faithful to the source,
including its clock choice: for `"creation"` the code selects
`os.path.getmtime` (the modification clock) and for `"modification"`
it selects `os.path.getctime`; any other argument fails the input
assertion. -/
def listOfFilesAreInDatetimeOrder (getctime getmtime : String → Nat)
    (listOfPaths : List String) (creationOrModification : String) :
    Except String Bool :=
  if creationOrModification = "creation" ∨ creationOrModification = "modification" then
    let filt := if creationOrModification = "creation" then getmtime else getctime
    Except.ok (decide (listOfPaths = stableSortByKey filt listOfPaths))
  else
    Except.error "creation_or_modification must be creation or modification."

/-- Concrete creation clock: `a` created before `b`. -/
def exCtime : String → Nat := fun p => if p = "a" then 0 else 1

/-- Concrete modification clock: `a` modified after `b`. -/
def exMtime : String → Nat := fun p => if p = "a" then 1 else 0

/-- C8: the claim says the `"creation"` check returns True exactly on
lists in ascending creation order, and that sorting by creation time
then checking with `"creation"` always returns True.  With creation
times a=0, b=1 and modification times a=1, b=0, the list `[a, b]` is in
ascending creation order (it equals its creation-sorted permutation,
conjuncts 1 and 3), yet the check with `"creation"` returns False
(conjunct 2) because the code reads the modification clock for
`"creation"` — contradicting its own docstring — and hence
sort-then-check also returns False (conjunct 4). -/
theorem listOfFilesAreInDatetimeOrder_swapped_clock :
    stableSortByKey exCtime ["a", "b"] = ["a", "b"]
    ∧ listOfFilesAreInDatetimeOrder exCtime exMtime ["a", "b"] "creation"
        = Except.ok false
    ∧ sortListOfPathsByDatetimeOrder exCtime ["a", "b"] = ["a", "b"]
    ∧ listOfFilesAreInDatetimeOrder exCtime exMtime
        (sortListOfPathsByDatetimeOrder exCtime ["a", "b"]) "creation"
        = Except.ok false := by
  refine ⟨rfl, by rfl, rfl, by rfl⟩

/-- A SLURM option value: booleans (e.g. `wait`), strings (e.g.
`env_name`), numbers (e.g. `mem_gb`). -/
inductive SVal where
  | bval (b : Bool)
  | sval (s : String)
  | nval (n : Nat)
deriving DecidableEq, Repr

/-- A SLURM options dictionary, as an ordered association list. -/
def SlurmOpts : Type := List (String × SVal)

/-- Python `dict` assignment: replace the value in place if the key is
present, append otherwise. -/
def setOpt : SlurmOpts → String → SVal → SlurmOpts
  | [], k, v => [(k, v)]
  | (k2, v2) :: rest, k, v =>
    if k2 = k then (k, v) :: rest else (k2, v2) :: setOpt rest k v

/-- Python `dict` lookup. -/
def lookupOpt : SlurmOpts → String → Option SVal
  | [], _ => none
  | (k2, v2) :: rest, k => if k2 = k then some v2 else lookupOpt rest k

/-- Python `dict.update`: each key of the update overwrites the base. -/
def updateOpts (base upd : SlurmOpts) : SlurmOpts :=
  upd.foldl (fun acc kv => setOpt acc kv.1 kv.2) base

/-- The options `run_in_slurm` actually uses: the defaults from
`default_slurm_options()`, overwritten by the user's dict when one is
given (`slurm_opts=True` in Python, meaning "use defaults as-is", is
`none` here). -/
def effectiveOpts (defaults : SlurmOpts) : Option SlurmOpts → SlurmOpts
  | some d => updateOpts defaults d
  | none => defaults

/-- Observable events of `run_in_slurm`: the single `executor.submit`,
the `job.wait()` block, and the closing user message. -/
inductive SlurmEvent where
  | submitJob
  | waitOnJob
  | startMessage
deriving DecidableEq, Repr

/-- Embedding of `run_in_slurm` (spikewrap/utils/_slurm.py, lines
35-57): fail fast if no scheduler is installed; merge the user options
over the defaults; pop `wait` and `env_name` (a missing key raises
before anything is submitted); submit the wrapped task exactly once;
block on `job.wait()` exactly when the popped `wait` option is true;
then print the start message. -/
def runInSlurm (slurmInstalled : Bool) (defaults : SlurmOpts)
    (slurmOpts : Option SlurmOpts) : Except String (List SlurmEvent) :=
  if slurmInstalled = false then
    Except.error "Cannot run with slurm, slurm is not found on this system."
  else
    match lookupOpt (effectiveOpts defaults slurmOpts) "wait",
        lookupOpt (effectiveOpts defaults slurmOpts) "env_name" with
    | some (SVal.bval shouldWait), some _ =>
      Except.ok (SlurmEvent.submitJob ::
        ((if shouldWait then [SlurmEvent.waitOnJob] else []) ++ [SlurmEvent.startMessage]))
    | _, _ => Except.error "KeyError"

/-- C7: whenever the scheduler is installed and the merged options
carry a boolean `wait` and an `env_name`, the batch dispatch submits
the task to the scheduler exactly once, and calls the job handle's
`wait` exactly when the effective `wait` option is true (returning
right after submission otherwise); and when the scheduler is missing
the call fails before any submission. -/
theorem runInSlurm_submits_once_waits_iff (defaults : SlurmOpts)
    (userOpts : Option SlurmOpts) (w : Bool) (envVal : SVal)
    (hw : lookupOpt (effectiveOpts defaults userOpts) "wait" = some (SVal.bval w))
    (he : lookupOpt (effectiveOpts defaults userOpts) "env_name" = some envVal) :
    runInSlurm true defaults userOpts
      = Except.ok (SlurmEvent.submitJob ::
          ((if w then [SlurmEvent.waitOnJob] else []) ++ [SlurmEvent.startMessage]))
    ∧ (∀ evs, runInSlurm true defaults userOpts = Except.ok evs →
        evs.count SlurmEvent.submitJob = 1
        ∧ (SlurmEvent.waitOnJob ∈ evs ↔ w = true))
    ∧ runInSlurm false defaults userOpts
      = Except.error "Cannot run with slurm, slurm is not found on this system." := by
  have hrun : runInSlurm true defaults userOpts
      = Except.ok (SlurmEvent.submitJob ::
          ((if w then [SlurmEvent.waitOnJob] else []) ++ [SlurmEvent.startMessage])) := by
    unfold runInSlurm
    rw [hw, he]
    simp
  refine ⟨hrun, ?_, by unfold runInSlurm; simp⟩
  intro evs hevs
  rw [hrun] at hevs
  have hevs2 : (SlurmEvent.submitJob ::
      ((if w then [SlurmEvent.waitOnJob] else []) ++ [SlurmEvent.startMessage])) = evs :=
    by injection hevs
  rw [← hevs2]
  cases w <;> simp [List.count_cons]

/-- Concrete SLURM defaults with `wait=false`. -/
def exDefaults : SlurmOpts :=
  [("wait", SVal.bval false), ("env_name", SVal.sval "envX")]

/-- C7 witness: with defaults carrying `wait=false` and an `env_name`,
and no user overrides, the call submits once and does not wait. -/
theorem runInSlurm_submits_once_waits_iff_witness :
    lookupOpt (effectiveOpts exDefaults none) "wait" = some (SVal.bval false)
    ∧ lookupOpt (effectiveOpts exDefaults none) "env_name" = some (SVal.sval "envX")
    ∧ runInSlurm true exDefaults none
        = Except.ok [SlurmEvent.submitJob, SlurmEvent.startMessage] := by
  refine ⟨rfl, rfl, ?_⟩
  have h := (runInSlurm_submits_once_waits_iff exDefaults none false (SVal.sval "envX")
    rfl rfl).1
  simpa using h

/-- A Python value stored in an options dictionary: booleans, strings,
or a reference to another (nested) dictionary on the heap. -/
inductive PV where
  | pbool (b : Bool)
  | pstr (s : String)
  | pref (a : Nat)
deriving DecidableEq, Repr

/-- A Python dictionary: ordered key-value pairs. -/
def PyDict : Type := List (String × PV)

/-- Python `dict` assignment / single-key `update`: replace in place,
keeping position, or append a new key at the end. -/
def dictSet : PyDict → String → PV → PyDict
  | [], k, v => [(k, v)]
  | (k2, v2) :: rest, k, v =>
    if k2 = k then (k, v) :: rest else (k2, v2) :: dictSet rest k v

/-- Python `dict` lookup. -/
def dictGet : PyDict → String → Option PV
  | [], _ => none
  | (k2, v2) :: rest, k => if k2 = k then some v2 else dictGet rest k

/-- The heap of dictionary objects, addressed by object identity. -/
def Heap : Type := Nat → PyDict

/-- Replace the dictionary object at one address. -/
def heapSet (h : Heap) (a : Nat) (d : PyDict) : Heap :=
  fun x => if x = a then d else h x

/-- The sorter names accepted by `validate_inputs`
(spikewrap/pipeline/sort.py, lines 231-238). -/
def supportedSorters : List String :=
  ["kilosort2", "kilosort2_5", "kilosort3", "mountainsort5", "spykingcircus",
    "tridesclous"]

/-- Embedding of `validate_inputs` (spikewrap/pipeline/sort.py, lines
199-250) over an explicit heap of dictionary objects.  `sorterOptions`
is the address of the caller's `sorter_options` dict (or `none` for
Python `None`); entries of that dict are expected to be nested dicts
(`PV.pref`).  After the two assertions, the code either aliases
`sorter_options[sorter]` as its working dict or creates a fresh empty
dict at `freshAddr`, and then runs
`sorter_options_dict.update({"verbose": verbose})` on that very
object, returning it. -/
def validateInputs (h : Heap) (freshAddr : Nat) (slurmBatch : Bool) (sorter : String)
    (sorterOptions : Option Nat) (verbose : Bool) : Except String (Heap × Nat) :=
  if slurmBatch then Except.error "SLURM run has slurm_batch set True"
  else if supportedSorters.contains sorter = false then
    Except.error "sorter is invalid"
  else
    match sorterOptions with
    | some a =>
      match dictGet (h a) sorter with
      | some (PV.pref inner) =>
        Except.ok (heapSet h inner (dictSet (h inner) "verbose" (PV.pbool verbose)), inner)
      | some _ => Except.error "AttributeError: update on a non-dict"
      | none =>
        Except.ok (heapSet h freshAddr (dictSet [] "verbose" (PV.pbool verbose)), freshAddr)
    | none =>
      Except.ok (heapSet h freshAddr (dictSet [] "verbose" (PV.pbool verbose)), freshAddr)

/-- The update `dictSet` really stores the binding. -/
theorem dictGet_dictSet (d : PyDict) (k : String) (v : PV) :
    dictGet (dictSet d k v) k = some v := by
  induction d with
  | nil => simp [dictSet, dictGet]
  | cons kv rest ih =>
    by_cases hk : kv.1 = k
    · rcases kv with ⟨k2, v2⟩
      simp only [dictSet, dictGet]
      rw [if_pos hk]
      simp [dictGet]
    · rcases kv with ⟨k2, v2⟩
      simp only [dictSet, dictGet] at *
      rw [if_neg hk]
      simp only [dictGet]
      rw [if_neg hk]
      exact ih

/-- Branch equation: `sorter_options` contains the sorter, mapping it
to a nested dict object. -/
theorem validateInputs_pref_eq (h : Heap) (freshAddr : Nat) (sorter : String)
    (a inner : Nat) (verbose : Bool)
    (hs : supportedSorters.contains sorter = true)
    (hl : dictGet (h a) sorter = some (PV.pref inner)) :
    validateInputs h freshAddr false sorter (some a) verbose
      = Except.ok (heapSet h inner (dictSet (h inner) "verbose" (PV.pbool verbose)), inner) := by
  have hmem : sorter ∈ supportedSorters := by simpa using hs
  unfold validateInputs
  simp [hmem, hl]

/-- Branch equation: `sorter_options` is Python `None`. -/
theorem validateInputs_fresh_none_eq (h : Heap) (freshAddr : Nat) (sorter : String)
    (verbose : Bool) (hs : supportedSorters.contains sorter = true) :
    validateInputs h freshAddr false sorter none verbose
      = Except.ok (heapSet h freshAddr (dictSet [] "verbose" (PV.pbool verbose)), freshAddr) := by
  have hmem : sorter ∈ supportedSorters := by simpa using hs
  unfold validateInputs
  simp [hmem]

/-- Branch equation: `sorter_options` given but without the sorter. -/
theorem validateInputs_fresh_missing_eq (h : Heap) (freshAddr : Nat) (sorter : String)
    (a : Nat) (verbose : Bool)
    (hs : supportedSorters.contains sorter = true)
    (hl : dictGet (h a) sorter = none) :
    validateInputs h freshAddr false sorter (some a) verbose
      = Except.ok (heapSet h freshAddr (dictSet [] "verbose" (PV.pbool verbose)), freshAddr) := by
  have hmem : sorter ∈ supportedSorters := by simpa using hs
  unfold validateInputs
  simp [hmem, hl]

/-- Branch equation: `sorter_options[sorter]` is not a dict. -/
theorem validateInputs_nonref_eq (h : Heap) (freshAddr : Nat) (sorter : String)
    (a : Nat) (verbose : Bool) (pv : PV)
    (hs : supportedSorters.contains sorter = true)
    (hl : dictGet (h a) sorter = some pv)
    (hnp : ∀ i, pv ≠ PV.pref i) :
    validateInputs h freshAddr false sorter (some a) verbose
      = Except.error "AttributeError: update on a non-dict" := by
  have hmem : sorter ∈ supportedSorters := by simpa using hs
  unfold validateInputs
  cases pv with
  | pbool b => simp [hmem, hl]
  | pstr s => simp [hmem, hl]
  | pref i => exact absurd rfl (hnp i)

/-- C10: whenever the asserts pass and `sorter_options` is a dict
containing the sorter name (mapping it to a nested dict object at
address `inner`), `validate_inputs` returns that very object — the
returned address is `inner`, the caller's `sorter_options[sorter]` —
after updating it in place with `"verbose" ↦ verbose`; every other heap
object is untouched; and in full generality (any arguments), a
successful call returns a dict that maps `"verbose"` to the `verbose`
argument. -/
theorem validateInputs_aliasing (h : Heap) (freshAddr : Nat) (sorter : String)
    (a inner : Nat) (verbose : Bool)
    (hs : supportedSorters.contains sorter = true)
    (hl : dictGet (h a) sorter = some (PV.pref inner)) :
    validateInputs h freshAddr false sorter (some a) verbose
      = Except.ok (heapSet h inner (dictSet (h inner) "verbose" (PV.pbool verbose)), inner)
    ∧ dictGet ((heapSet h inner (dictSet (h inner) "verbose" (PV.pbool verbose))) inner)
        "verbose" = some (PV.pbool verbose)
    ∧ (∀ x, x ≠ inner →
        (heapSet h inner (dictSet (h inner) "verbose" (PV.pbool verbose))) x = h x)
    ∧ (∀ (h3 : Heap) (fresh3 : Nat) (slurm3 : Bool) (sorter3 : String)
        (opts3 : Option Nat) (verbose3 : Bool) (h4 : Heap) (r : Nat),
        validateInputs h3 fresh3 slurm3 sorter3 opts3 verbose3 = Except.ok (h4, r) →
        dictGet (h4 r) "verbose" = some (PV.pbool verbose3)) := by
  refine ⟨validateInputs_pref_eq h freshAddr sorter a inner verbose hs hl, ?_, ?_, ?_⟩
  · simp [heapSet, dictGet_dictSet]
  · intro x hx
    simp [heapSet, hx]
  · intro h3 fresh3 slurm3 sorter3 opts3 verbose3 h4 r hok
    cases slurm3 with
    | true =>
      unfold validateInputs at hok
      simp at hok
    | false =>
      cases hsup : supportedSorters.contains sorter3 with
      | false =>
        have hnmem : sorter3 ∉ supportedSorters := by simpa using hsup
        unfold validateInputs at hok
        simp [hnmem] at hok
      | true =>
        cases opts3 with
        | none =>
          rw [validateInputs_fresh_none_eq h3 fresh3 sorter3 verbose3 hsup] at hok
          have hpair := Except.ok.inj hok
          injection hpair with hh hr
          rw [← hh, ← hr]
          simp [heapSet, dictGet_dictSet]
        | some a3 =>
          rcases hget : dictGet (h3 a3) sorter3 with _ | pv
          · rw [validateInputs_fresh_missing_eq h3 fresh3 sorter3 a3 verbose3 hsup hget]
              at hok
            have hpair := Except.ok.inj hok
            injection hpair with hh hr
            rw [← hh, ← hr]
            simp [heapSet, dictGet_dictSet]
          · cases pv with
            | pbool b =>
              rw [validateInputs_nonref_eq h3 fresh3 sorter3 a3 verbose3 (PV.pbool b)
                hsup hget (fun i => by simp)] at hok
              simp at hok
            | pstr s =>
              rw [validateInputs_nonref_eq h3 fresh3 sorter3 a3 verbose3 (PV.pstr s)
                hsup hget (fun i => by simp)] at hok
              simp at hok
            | pref inner3 =>
              rw [validateInputs_pref_eq h3 fresh3 sorter3 a3 inner3 verbose3 hsup hget]
                at hok
              have hpair := Except.ok.inj hok
              injection hpair with hh hr
              rw [← hh, ← hr]
              simp [heapSet, dictGet_dictSet]

/-- A concrete heap: address 0 holds the caller's `sorter_options`
mapping `"kilosort2_5"` to the nested dict at address 1, which holds
one prior option. -/
def exHeap : Heap :=
  fun a =>
    if a = 0 then [("kilosort2_5", PV.pref 1)]
    else if a = 1 then [("tmp_dir", PV.pstr "/x")]
    else []

/-- C10 witness: on the concrete heap, the returned dict is the very
object at address 1 — the caller's `sorter_options["kilosort2_5"]` —
updated in place with the verbose flag. -/
theorem validateInputs_aliasing_witness :
    supportedSorters.contains "kilosort2_5" = true
    ∧ dictGet (exHeap 0) "kilosort2_5" = some (PV.pref 1)
    ∧ validateInputs exHeap 99 false "kilosort2_5" (some 0) true
        = Except.ok
            (heapSet exHeap 1 (dictSet (exHeap 1) "verbose" (PV.pbool true)), 1) := by
  refine ⟨by decide, rfl, ?_⟩
  exact (validateInputs_aliasing exHeap 99 "kilosort2_5" 0 1 true (by decide) rfl).1

end SwcEphys
